import Mathlib

/-!
# Verification of the ROS Component Explorer query layer

A shallow embedding of `backend/db_manager.py` (class `DatabaseManager`):
an adapter over an in-memory RDF graph answering four operations,
`get_all_components` (list_all), `search_components` (search),
`get_component_details` (get_details) and `get_component_count` (count),
plus `load_data` (load).

Modelling choices:
* An RDF node is a URI or a literal; `str(...)` on either yields its
  underlying text, modelled by `nodeStr`.
* A graph is a list of triples; SPARQL basic-graph-pattern matching is
  modelled by enumerating the bindings in graph order.
* The SPARQL `REGEX(_, term, "i")` filter delegates to Python's
  `re.search(term, text, re.IGNORECASE)`.  The adapter operations are
  parametrised by an oracle `rmatch : String → String → Bool` for that
  call; `regexSearchCI` below instantiates it faithfully for the pattern
  fragment used by the concrete theorems (literal characters and `+`).
  rdflib raises a SPARQL type error when `REGEX` is applied to the URI
  `?class_type`; under SPARQL's error semantics `true || error = true`
  and `false || error = false` for the rows decided by the theorems
  below, so the oracle parametrisation covers either reading.
* Query evaluation may raise in Python; each operation therefore has a
  `*_try` form taking the query outcome as an `Except`, mirroring the
  `try/except` blocks, and the pure form feeds it the successful
  evaluation.
* `ORDER BY ?label` is modelled as rdflib evaluates it: a stable sort
  keyed first by the bound term's type rank (`_val`: URI references
  before literals) and then by the codepoint order of its text.
-/

/-- An RDF term in object position: a URI reference or a literal. -/
inductive Node where
  | uri (s : String)
  | lit (s : String)
deriving DecidableEq

/-- `str(...)` on an rdflib `URIRef` or `Literal`: the underlying text. -/
def nodeStr : Node → String
  | .uri s => s
  | .lit s => s

/-- A subject–predicate–object fact.  Subjects and predicates are URIs. -/
structure Triple where
  s : String
  p : String
  o : Node
deriving DecidableEq

/-- The in-memory graph: the loaded triple set, in load order. -/
abbrev Graph := List Triple

def rdfType : String := "http://www.w3.org/1999/02/22-rdf-syntax-ns#type"

def rdfsLabel : String := "http://www.w3.org/2000/01/rdf-schema#label"

def compDescription : String := "http://example.org/ros-components#description"

/-- The `FILTER(?class_type IN (...))` allow-list of category URIs. -/
def allowList : List String :=
  ["http://example.org/ros-components#LocalizationNode",
   "http://example.org/ros-components#SensorDriver",
   "http://example.org/ros-components#PathPlanner",
   "http://example.org/ros-components#Controller",
   "http://example.org/ros-components#PerceptionNode"]

/-- The local names of the five allow-listed categories. -/
def allowedClassNames : List String :=
  ["LocalizationNode", "SensorDriver", "PathPlanner", "Controller",
   "PerceptionNode"]

/-- `?class_type` must be a URI contained in the allow-list
(a literal never equals a URI under SPARQL `IN`). -/
def typeObjAllowed : Node → Bool
  | .uri ct => allowList.contains ct
  | .lit _ => false

/-- Python's `s.split('#')[-1]`: the text after the last `#`,
or all of `s` when no `#` occurs. -/
def afterLastHash (s : String) : String :=
  String.mk ((s.toList.reverse.takeWhile (fun c => c ≠ '#')).reverse)

/-- `'#' in s` for Python strings. -/
def containsHash (s : String) : Bool :=
  s.toList.contains '#'

/-- Characters stripped by Python's no-argument `str.strip()`
(the `str.isspace()` set). -/
def pyIsSpace (c : Char) : Bool :=
  [' ', '\t', '\n', '\r', '\x0b', '\x0c',
   '\x1c', '\x1d', '\x1e', '\x1f', '\x85', '\xa0',
   ' ', ' ', ' ', ' ', ' ', ' ', ' ',
   ' ', ' ', ' ', ' ', ' ', ' ', ' ',
   ' ', ' ', '　'].contains c

/-- Python's `s.strip()`: drop leading and trailing whitespace. -/
def pyStrip (s : String) : String :=
  String.mk (((s.toList.dropWhile pyIsSpace).reverse.dropWhile
    pyIsSpace).reverse)

/-- Codepoint-lexicographic `≤` on character lists (the order used by
Python string comparison and SPARQL `ORDER BY` on simple literals). -/
def lexLe : List Char → List Char → Bool
  | [], _ => true
  | _ :: _, [] => false
  | a :: as, b :: bs =>
    if a.toNat < b.toNat then true
    else if b.toNat < a.toNat then false
    else lexLe as bs

/-- Codepoint-lexicographic `≤` on strings. -/
def strLe (a b : String) : Bool :=
  lexLe a.toList b.toList

/-- rdflib's ordering rank of an RDF term (`_val`): URI references sort
before literals under `ORDER BY`. -/
def nodeRank : Node → Nat
  | .uri _ => 2
  | .lit _ => 3

/-- The `ORDER BY` comparison rdflib applies to the bound terms: the
term-type rank first, then codepoint order of the term's text. -/
def orderByLe (x y : Node) : Bool :=
  if nodeRank x < nodeRank y then true
  else if nodeRank y < nodeRank x then false
  else strLe (nodeStr x) (nodeStr y)

/-- Stable insertion into a list sorted by `le`. -/
def insertLe (le : α → α → Bool) (a : α) : List α → List α
  | [] => [a]
  | b :: bs => if le a b then a :: b :: bs else b :: insertLe le a bs

/-- Stable insertion sort by `le`; models SPARQL `ORDER BY`. -/
def sortLe (le : α → α → Bool) : List α → List α
  | [] => []
  | a :: as => insertLe le a (sortLe le as)

/-- The metacharacters of Python's `re` syntax. -/
def regexMeta : List Char :=
  ['.', '^', '$', '*', '+', '?', '\x7b', '\x7d', '[', ']', '\\', '|',
   '(', ')']

/-- Case-insensitive character comparison, as `re.IGNORECASE` applies it
to ASCII letters. -/
def ciEq (a b : Char) : Bool :=
  a.toLower = b.toLower

/-- Case-insensitive equality of character lists (equality of the two
texts up to letter case). -/
def ciListEq : List Char → List Char → Bool
  | [], [] => true
  | a :: as, b :: bs => ciEq a b && ciListEq as bs
  | _, _ => false

/-- A token of the supported regex fragment: a single character, or a
character under `+` (one or more). -/
inductive RTok where
  | lit (c : Char)
  | plus (c : Char)
deriving DecidableEq

/-- Parse a pattern within the fragment: any non-metacharacter, each
optionally followed by `+`.  Patterns outside the fragment (any other
metacharacter use) yield `none` and are not used by any theorem. -/
def parsePattern : List Char → Option (List RTok)
  | [] => some []
  | [c] =>
    if regexMeta.contains c then none
    else some [RTok.lit c]
  | c :: d :: rest =>
    if regexMeta.contains c then none
    else if d = '+' then
      (parsePattern rest).map (fun ts => RTok.plus c :: ts)
    else (parsePattern (d :: rest)).map (fun ts => RTok.lit c :: ts)

/-- Match a token sequence against a prefix of the text. -/
def matchToks : List RTok → List Char → Bool
  | [], _ => true
  | _ :: _, [] => false
  | .lit c :: ts, x :: xs => ciEq c x && matchToks ts xs
  | .plus c :: ts, x :: xs =>
    ciEq c x && (matchToks ts xs || matchToks (.plus c :: ts) xs)

/-- Match a token sequence at some position of the text, as `re.search`
scans for a match anywhere. -/
def searchToks (ts : List RTok) : List Char → Bool
  | [] => matchToks ts []
  | x :: xs => matchToks ts (x :: xs) || searchToks ts xs

/-- `re.search(pattern, text, re.IGNORECASE) is not None`, for patterns
of the supported fragment. -/
def regexSearchCI (pattern text : String) : Bool :=
  match parsePattern pattern.toList with
  | some ts => searchToks ts text.toList
  | none => false

/-- One solution row of the list/search `SELECT` queries.  `labelTerm`
is the RDF term bound to `?label`; `label` is its text `str(row.label)`
as Python reads it. -/
structure Row where
  component : String
  label : String
  labelTerm : Node
  class_type : String
  description : Option String
deriving DecidableEq

/-- The bindings of the shared basic graph pattern of the list and search
queries: `?component a ?class_type . ?component rdfs:label ?label .
OPTIONAL { ?component comp:description ?description }` with the
allow-list filter on `?class_type`, enumerated in graph order. -/
def rawRows (g : Graph) : List Row :=
  g.flatMap (fun t1 =>
    if t1.p = rdfType ∧ typeObjAllowed t1.o then
      (g.filter (fun t2 => t2.s = t1.s ∧ t2.p = rdfsLabel)).flatMap
        (fun t2 =>
          match g.filter
              (fun t3 => t3.s = t1.s ∧ t3.p = compDescription) with
          | [] => [⟨t1.s, nodeStr t2.o, t2.o, nodeStr t1.o, none⟩]
          | ds => ds.map
              (fun t3 =>
                ⟨t1.s, nodeStr t2.o, t2.o, nodeStr t1.o,
                 some (nodeStr t3.o)⟩))
    else [])

/-- `ORDER BY ?label`, as rdflib evaluates it: a stable sort keyed by
the bound term under `orderByLe` (term-type rank, then text). -/
def sortByLabel (rows : List Row) : List Row :=
  sortLe (fun a b => orderByLe a.labelTerm b.labelTerm) rows

/-- The component record dictionary built from one result row
(`uri`/`name`/`class`/`description`; `class` is a Lean keyword, so the
field is called `cls`). -/
structure Rec where
  uri : String
  name : String
  cls : String
  description : String
deriving DecidableEq

/-- `component_info` built per row: `'class'` takes the last `#`-segment
of the class URI; `'description'` falls back to the placeholder when the
binding is absent or the literal is falsy (empty). -/
def rowToRec (r : Row) : Rec :=
  { uri := r.component
    name := r.label
    cls := afterLastHash r.class_type
    description :=
      match r.description with
      | some d => if d = "" then "No description available" else d
      | none => "No description available" }

/-- The evaluated (already ordered) query of `get_all_components`. -/
def allComponentsQuery (g : Graph) : List Row :=
  sortByLabel (rawRows g)

/-- The `try/except` body of `get_all_components`: on success the rows
are reshaped into records, on a query error the empty list is
returned. -/
def get_all_components_try (qres : Except String (List Row)) : List Rec :=
  match qres with
  | .ok rows => rows.map rowToRec
  | .error _ => []

def get_all_components (g : Graph) : List Rec :=
  get_all_components_try (.ok (allComponentsQuery g))

/-- The search filter of one row: `REGEX(?label, t, "i") ||
REGEX(?class_type, t, "i") || (BOUND(?description) &&
REGEX(?description, t, "i"))`, with `rmatch` the regex oracle. -/
def rowMatches (rmatch : String → String → Bool) (term : String)
    (r : Row) : Bool :=
  rmatch term r.label || rmatch term r.class_type ||
    (match r.description with
     | some d => rmatch term d
     | none => false)

/-- The evaluated (already ordered) query of `search_components`. -/
def searchQuery (rmatch : String → String → Bool) (g : Graph)
    (term : String) : List Row :=
  sortByLabel ((rawRows g).filter (rowMatches rmatch term))

/-- `search_components` with the two query outcomes explicit: a
whitespace-only term short-circuits to `get_all_components`; otherwise
the search query runs under `try/except` with `[]` on error. -/
def search_components_try (term : String)
    (allRes : Except String (List Row))
    (searchRes : Except String (List Row)) : List Rec :=
  if pyStrip term = "" then get_all_components_try allRes
  else
    match searchRes with
    | .ok rows => rows.map rowToRec
    | .error _ => []

def search_components (rmatch : String → String → Bool) (g : Graph)
    (term : String) : List Rec :=
  search_components_try term (.ok (allComponentsQuery g))
    (.ok (searchQuery rmatch g term))

/-- Python's `str(row.property).split('#')[-1] if '#' in ... else ...`:
the predicate's local name. -/
def localName (p : String) : String :=
  if containsHash p then afterLastHash p else p

/-- The rows of `SELECT ?property ?value WHERE { <uri> ?property ?value }`,
in graph order. -/
def detailRows (g : Graph) (uri : String) : List (String × String) :=
  (g.filter (fun t => t.s = uri)).map (fun t => (t.p, nodeStr t.o))

/-- The `details` dictionary being built by `get_component_details`. -/
structure Detail where
  uri : String
  cls : Option String
  name : Option String
  props : List (String × String)
deriving DecidableEq

/-- Python dict assignment `d[k] = v` on an insertion-ordered
association list: overwrite the first binding of `k` in place, else
append. -/
def dictSet (l : List (String × String)) (k v : String) :
    List (String × String) :=
  match l with
  | [] => [(k, v)]
  | (k', v') :: rest =>
    if k' = k then (k, v) :: rest else (k', v') :: dictSet rest k v

/-- One iteration of the result loop of `get_component_details`:
local name `type` sets `class`, `label` sets `name`, anything else goes
into the `properties` dict. -/
def applyRow (d : Detail) (pv : String × String) : Detail :=
  let pname := localName pv.1
  if pname = "type" then { d with cls := some (afterLastHash pv.2) }
  else if pname = "label" then { d with name := some pv.2 }
  else { d with props := dictSet d.props pname pv.2 }

/-- Python truthiness of `details.get('name')`: falsy when the key is
absent or its value is the empty string. -/
def pyTruthy : Option String → Bool
  | none => false
  | some s => s ≠ ""

/-- The `try/except` body of `get_component_details`: fold the rows into
the dictionary, return `none` when the resolved `name` is falsy or the
query raised. -/
def get_component_details_try (uri : String)
    (qres : Except String (List (String × String))) : Option Detail :=
  match qres with
  | .ok rows =>
    let d := rows.foldl applyRow ⟨uri, none, none, []⟩
    if pyTruthy d.name then some d else none
  | .error _ => none

def get_component_details (g : Graph) (uri : String) : Option Detail :=
  get_component_details_try uri (.ok (detailRows g uri))

/-- The evaluated `COUNT(?component)` of `get_component_count`: it
counts the solution rows of `?component a ?class_type` under the
allow-list filter — one row per type triple, not per distinct subject. -/
def countQuery (g : Graph) : Nat :=
  (g.filter (fun t => t.p = rdfType ∧ typeObjAllowed t.o)).length

/-- The `try/except` body of `get_component_count`: the evaluated count,
or `0` on a query error. -/
def get_component_count_try (qres : Except String Nat) : Nat :=
  match qres with
  | .ok n => n
  | .error _ => 0

def get_component_count (g : Graph) : Nat :=
  get_component_count_try (.ok (countQuery g))

/-- `load_data`: the instance graph is replaced by a fresh empty graph,
then `parse` adds the file's triples into it.  The outcome of the parse
is explicit: on success the full triple set, on failure the triples the
parser had already added (possibly none) together with the error.  The
previous graph `pre` is discarded either way. -/
def load_data (pre : Graph) (parseRes : Except Graph Graph) :
    Graph × Bool :=
  match pre, parseRes with
  | _, .ok g => (g, true)
  | _, .error partialG => (partialG, false)

/-! ## Lemmas about the insertion sort modelling `ORDER BY` -/

theorem mem_insertLe {α : Type} {le : α → α → Bool} (x a : α)
    (l : List α) : a ∈ insertLe le x l ↔ a = x ∨ a ∈ l := by
  induction l with
  | nil => simp [insertLe]
  | cons b bs ih =>
    by_cases h : le x b = true
    · simp [insertLe, h, ih]
    · simp [insertLe, h, ih]
      tauto

theorem mem_sortLe {α : Type} {le : α → α → Bool} (l : List α) (a : α) :
    a ∈ sortLe le l ↔ a ∈ l := by
  induction l with
  | nil => simp [sortLe]
  | cons b bs ih => simp [sortLe, mem_insertLe, ih]

theorem pairwise_insertLe {α : Type} {le : α → α → Bool}
    (htrans : ∀ a b c, le a b = true → le b c = true → le a c = true)
    (htot : ∀ a b, le a b = true ∨ le b a = true) (x : α) (l : List α)
    (hl : l.Pairwise (fun a b => le a b = true)) :
    (insertLe le x l).Pairwise (fun a b => le a b = true) := by
  induction l with
  | nil => simp [insertLe]
  | cons b bs ih =>
    rcases List.pairwise_cons.mp hl with ⟨hb, hbs⟩
    by_cases h : le x b = true
    · simp only [insertLe, h, if_true]
      refine List.pairwise_cons.mpr ⟨?_, hl⟩
      intro y hy
      rcases List.mem_cons.mp hy with rfl | hy2
      · exact h
      · exact htrans x b y h (hb y hy2)
    · simp only [insertLe, h, if_false]
      refine List.pairwise_cons.mpr ⟨?_, ih hbs⟩
      intro y hy
      rcases (mem_insertLe x y bs).mp hy with hy1 | hy2
      · rw [hy1]
        rcases htot x b with hxb | hbx
        · exact absurd hxb h
        · exact hbx
      · exact hb y hy2

theorem pairwise_sortLe {α : Type} {le : α → α → Bool}
    (htrans : ∀ a b c, le a b = true → le b c = true → le a c = true)
    (htot : ∀ a b, le a b = true ∨ le b a = true) (l : List α) :
    (sortLe le l).Pairwise (fun a b => le a b = true) := by
  induction l with
  | nil => simp [sortLe]
  | cons b bs ih => exact pairwise_insertLe htrans htot b _ ih

theorem lexLe_total : ∀ as bs : List Char,
    lexLe as bs = true ∨ lexLe bs as = true := by
  intro as
  induction as with
  | nil => intro bs; left; rfl
  | cons a as ih =>
    intro bs
    cases bs with
    | nil => right; rfl
    | cons b bs =>
      simp only [lexLe]
      rcases Nat.lt_trichotomy a.toNat b.toNat with h | h | h
      · left; simp [h]
      · have h1 : ¬a.toNat < b.toNat := by omega
        have h2 : ¬b.toNat < a.toNat := by omega
        simpa [h1, h2] using ih bs
      · right; simp [h]

theorem lexLe_trans : ∀ as bs cs : List Char, lexLe as bs = true →
    lexLe bs cs = true → lexLe as cs = true := by
  intro as
  induction as with
  | nil => intros; rfl
  | cons a as ih =>
    intro bs cs h1 h2
    cases bs with
    | nil => simp [lexLe] at h1
    | cons b bs =>
      cases cs with
      | nil => simp [lexLe] at h2
      | cons c cs =>
        simp only [lexLe] at h1 h2 ⊢
        split_ifs at h1 h2 ⊢ <;>
          first
            | rfl
            | omega
            | exact ih bs cs h1 h2

theorem strLe_total (a b : String) :
    strLe a b = true ∨ strLe b a = true :=
  lexLe_total _ _

theorem strLe_trans (a b c : String) (h1 : strLe a b = true)
    (h2 : strLe b c = true) : strLe a c = true :=
  lexLe_trans _ _ _ h1 h2

theorem orderByLe_total (x y : Node) :
    orderByLe x y = true ∨ orderByLe y x = true := by
  unfold orderByLe
  rcases Nat.lt_trichotomy (nodeRank x) (nodeRank y) with h | h | h
  · left
    simp [h]
  · have h1 : ¬nodeRank x < nodeRank y := by omega
    have h2 : ¬nodeRank y < nodeRank x := by omega
    simpa [h1, h2] using strLe_total (nodeStr x) (nodeStr y)
  · right
    simp [h]

theorem orderByLe_trans (x y z : Node) (h1 : orderByLe x y = true)
    (h2 : orderByLe y z = true) : orderByLe x z = true := by
  unfold orderByLe at h1 h2 ⊢
  split_ifs at h1 h2 ⊢ <;>
    first
      | rfl
      | omega
      | exact strLe_trans _ _ _ h1 h2

theorem pairwise_sortByLabel (rows : List Row) :
    (sortByLabel rows).Pairwise
      (fun a b => orderByLe a.labelTerm b.labelTerm = true) :=
  pairwise_sortLe
    (fun a b c => orderByLe_trans a.labelTerm b.labelTerm c.labelTerm)
    (fun a b => orderByLe_total a.labelTerm b.labelTerm) rows

theorem mem_sortByLabel (rows : List Row) (r : Row) :
    r ∈ sortByLabel rows ↔ r ∈ rows :=
  mem_sortLe rows r

/-! ## Membership lemmas for the list and search queries -/

theorem rawRows_class_type_mem (g : Graph) (r : Row)
    (h : r ∈ rawRows g) : r.class_type ∈ allowList := by
  unfold rawRows at h
  rw [List.mem_flatMap] at h
  obtain ⟨t1, _, hr⟩ := h
  split at hr
  case isFalse => simp at hr
  case isTrue hc =>
    rw [List.mem_flatMap] at hr
    obtain ⟨t2, _, hr2⟩ := hr
    have hct : r.class_type = nodeStr t1.o := by
      cases hds : g.filter
          (fun t3 => t3.s = t1.s ∧ t3.p = compDescription) with
      | nil =>
        rw [hds] at hr2
        simp at hr2
        rw [hr2]
      | cons d ds =>
        rw [hds] at hr2
        rw [List.mem_map] at hr2
        obtain ⟨t3, _, h3⟩ := hr2
        rw [← h3]
    rcases hc with ⟨_, hallow⟩
    cases ho : t1.o with
    | uri ct =>
      rw [hct, ho]
      rw [ho] at hallow
      simpa [typeObjAllowed] using hallow
    | lit s =>
      rw [ho] at hallow
      simp [typeObjAllowed] at hallow

theorem rawRows_label_props (g : Graph) (r : Row) (h : r ∈ rawRows g) :
    r.label = nodeStr r.labelTerm ∧
      ∃ t ∈ g, t.p = rdfsLabel ∧ r.labelTerm = t.o := by
  unfold rawRows at h
  rw [List.mem_flatMap] at h
  obtain ⟨t1, _, hr⟩ := h
  split at hr
  case isFalse => simp at hr
  case isTrue hc =>
    rw [List.mem_flatMap] at hr
    obtain ⟨t2, ht2, hr2⟩ := hr
    have ht2' := List.mem_filter.mp ht2
    have hp : t2.p = rdfsLabel := by
      have h2 := ht2'.2
      simp at h2
      exact h2.2
    have hrow : r.label = nodeStr t2.o ∧ r.labelTerm = t2.o := by
      cases hds : g.filter
          (fun t3 => t3.s = t1.s ∧ t3.p = compDescription) with
      | nil =>
        rw [hds] at hr2
        simp at hr2
        rw [hr2]
        exact ⟨rfl, rfl⟩
      | cons d ds =>
        rw [hds] at hr2
        rw [List.mem_map] at hr2
        obtain ⟨t3, _, h3⟩ := hr2
        rw [← h3]
        exact ⟨rfl, rfl⟩
    exact ⟨by rw [hrow.1, hrow.2], t2, ht2'.1, hp, hrow.2⟩

theorem mem_allowList_cls (ct : String) (h : ct ∈ allowList) :
    afterLastHash ct ∈ allowedClassNames := by
  simp only [allowList, List.mem_cons, List.not_mem_nil, or_false] at h
  rcases h with rfl | rfl | rfl | rfl | rfl <;> decide

theorem mem_get_all_components (g : Graph) (rec : Rec) :
    rec ∈ get_all_components g ↔
      ∃ row, row ∈ rawRows g ∧ rowToRec row = rec := by
  simp [get_all_components, get_all_components_try, allComponentsQuery,
    List.mem_map, mem_sortByLabel]

theorem search_components_of_whitespace
    (rm : String → String → Bool) (g : Graph) (term : String)
    (h : pyStrip term = "") :
    search_components rm g term = get_all_components g := by
  simp [search_components, search_components_try, h, get_all_components]

theorem mem_search_components (rm : String → String → Bool) (g : Graph)
    (term : String) (rec : Rec) (h : ¬pyStrip term = "") :
    rec ∈ search_components rm g term ↔
      ∃ row, row ∈ rawRows g ∧ rowMatches rm term row = true ∧
        rowToRec row = rec := by
  simp [search_components, search_components_try, h, searchQuery,
    List.mem_map, mem_sortByLabel, List.mem_filter, and_assoc]

/-! ## Lemmas about the regex fragment matcher -/

theorem parsePattern_all_lit : ∀ l : List Char,
    (∀ c ∈ l, regexMeta.contains c = false) →
    parsePattern l = some (l.map RTok.lit) := by
  intro l
  induction l with
  | nil => intro _; rfl
  | cons c rest ih =>
    intro h
    have hc : regexMeta.contains c = false := h c (List.mem_cons_self c rest)
    cases rest with
    | nil =>
      have hc2 : c ∉ regexMeta := by simpa using hc
      simp [parsePattern, hc2]
    | cons d rest2 =>
      have hd : regexMeta.contains d = false :=
        h d (List.mem_cons_of_mem c (List.mem_cons_self d rest2))
      have hdne : ¬d = '+' := by
        intro hh
        rw [hh] at hd
        simp [regexMeta] at hd
      have hrest : ∀ x ∈ d :: rest2, regexMeta.contains x = false :=
        fun x hx => h x (List.mem_cons_of_mem c hx)
      have hc2 : c ∉ regexMeta := by simpa using hc
      simp [parsePattern, hc2, hdne, ih hrest]

theorem matchToks_of_ciListEq : ∀ p s : List Char,
    ciListEq p s = true → matchToks (p.map RTok.lit) s = true := by
  intro p
  induction p with
  | nil =>
    intro s h
    cases s with
    | nil => rfl
    | cons b bs => simp [ciListEq] at h
  | cons a as ih =>
    intro s h
    cases s with
    | nil => simp [ciListEq] at h
    | cons b bs =>
      simp only [ciListEq, Bool.and_eq_true] at h
      simp [matchToks, h.1, ih bs h.2]

theorem searchToks_of_matchToks (ts : List RTok) (s : List Char)
    (h : matchToks ts s = true) : searchToks ts s = true := by
  cases s with
  | nil => exact h
  | cons x xs => simp [searchToks, h]

theorem regexSearchCI_of_ci_nonmeta (p s : String)
    (hci : ciListEq p.toList s.toList = true)
    (hnm : ∀ c ∈ p.toList, regexMeta.contains c = false) :
    regexSearchCI p s = true := by
  unfold regexSearchCI
  rw [parsePattern_all_lit p.toList hnm]
  exact searchToks_of_matchToks _ _ (matchToks_of_ciListEq _ _ hci)

/-! ## Lemmas about the detail-building loop -/

/-- The `name` value as the result loop of `get_component_details`
resolves it: the value of the last row whose predicate has local name
`label`, else the initial value. -/
def resolvedLabel (init : Option String)
    (rows : List (String × String)) : Option String :=
  rows.foldl
    (fun acc r => if localName r.1 = "label" then some r.2 else acc) init

theorem applyRow_name (d : Detail) (pv : String × String) :
    (applyRow d pv).name =
      if localName pv.1 = "label" then some pv.2 else d.name := by
  by_cases h1 : localName pv.1 = "type"
  · have h2 : ¬localName pv.1 = "label" := by rw [h1]; decide
    simp [applyRow, h1, h2]
  · by_cases h2 : localName pv.1 = "label" <;> simp [applyRow, h1, h2]

theorem applyRow_uri (d : Detail) (pv : String × String) :
    (applyRow d pv).uri = d.uri := by
  simp only [applyRow]
  split_ifs <;> rfl

theorem foldl_applyRow_name : ∀ (rows : List (String × String))
    (d : Detail), (rows.foldl applyRow d).name = resolvedLabel d.name rows := by
  intro rows
  induction rows with
  | nil => intro d; rfl
  | cons r rs ih =>
    intro d
    rw [List.foldl_cons, ih, applyRow_name]
    simp [resolvedLabel, List.foldl_cons]

theorem foldl_applyRow_uri : ∀ (rows : List (String × String))
    (d : Detail), (rows.foldl applyRow d).uri = d.uri := by
  intro rows
  induction rows with
  | nil => intro d; rfl
  | cons r rs ih =>
    intro d
    rw [List.foldl_cons, ih, applyRow_uri]

theorem pyTruthy_false_iff (o : Option String) :
    pyTruthy o = false ↔ o = none ∨ o = some "" := by
  cases o with
  | none => simp [pyTruthy]
  | some s => simp [pyTruthy]

theorem resolvedLabel_filter : ∀ (rows : List (String × String))
    (init : Option String),
    resolvedLabel init rows =
      resolvedLabel init (rows.filter (fun r => localName r.1 = "label")) := by
  intro rows
  induction rows with
  | nil => intro init; rfl
  | cons r rs ih =>
    intro init
    by_cases h : localName r.1 = "label"
    · simp [resolvedLabel, List.foldl_cons, List.filter_cons, h] at ih ⊢
      exact ih (some r.2)
    · simp [resolvedLabel, List.foldl_cons, List.filter_cons, h] at ih ⊢
      exact ih init

/-- The fact the spec asserts for one subject triple: its reshaped
key/value is present in the returned detail (`type` in `class`, `label`
in `name`, all else in `properties`). -/
def rowReflected (d : Detail) (pv : String × String) : Prop :=
  if localName pv.1 = "type" then d.cls = some (afterLastHash pv.2)
  else if localName pv.1 = "label" then d.name = some pv.2
  else (localName pv.1, pv.2) ∈ d.props

theorem mem_dictSet_self (l : List (String × String)) (k v : String) :
    (k, v) ∈ dictSet l k v := by
  induction l with
  | nil => simp [dictSet]
  | cons p rest ih =>
    obtain ⟨k', v'⟩ := p
    by_cases h : k' = k <;> simp [dictSet, h, ih]

theorem mem_dictSet_other (l : List (String × String))
    (k v a b : String) (hne : a ≠ k) (h : (a, b) ∈ l) :
    (a, b) ∈ dictSet l k v := by
  induction l with
  | nil => simp at h
  | cons p rest ih =>
    obtain ⟨k', v'⟩ := p
    rcases List.mem_cons.mp h with heq | hrest
    · have : a = k' := by
        rw [Prod.ext_iff] at heq
        exact heq.1
      by_cases hk : k' = k
      · exact absurd (this.trans hk) hne
      · rw [← heq]
        simp [dictSet, hne]
    · by_cases hk : k' = k
      · simp [dictSet, hk]
        exact Or.inr hrest
      · simp [dictSet, hk]
        exact Or.inr (ih hrest)

theorem applyRow_reflects (d : Detail) (pv : String × String) :
    rowReflected (applyRow d pv) pv := by
  unfold rowReflected
  by_cases h1 : localName pv.1 = "type"
  · simp [applyRow, h1]
  · by_cases h2 : localName pv.1 = "label"
    · simp [applyRow, h1, h2]
    · simp [applyRow, h1, h2, mem_dictSet_self]

theorem applyRow_preserves (d : Detail) (pv qv : String × String)
    (hne : localName qv.1 ≠ localName pv.1) (h : rowReflected d pv) :
    rowReflected (applyRow d qv) pv := by
  unfold rowReflected at h ⊢
  by_cases p1 : localName pv.1 = "type"
  · rw [if_pos p1] at h ⊢
    by_cases q1 : localName qv.1 = "type"
    · exact absurd (q1.trans p1.symm) hne
    · by_cases q2 : localName qv.1 = "label" <;>
        simpa [applyRow, q1, q2] using h
  · by_cases p2 : localName pv.1 = "label"
    · rw [if_neg p1, if_pos p2] at h ⊢
      by_cases q2 : localName qv.1 = "label"
      · exact absurd (q2.trans p2.symm) hne
      · by_cases q1 : localName qv.1 = "type" <;>
          simpa [applyRow, q1, q2] using h
    · rw [if_neg p1, if_neg p2] at h ⊢
      by_cases q1 : localName qv.1 = "type"
      · simpa [applyRow, q1] using h
      · by_cases q2 : localName qv.1 = "label"
        · simpa [applyRow, q1, q2] using h
        · simp only [applyRow]
          rw [if_neg q1, if_neg q2]
          exact mem_dictSet_other d.props (localName qv.1) qv.2
            (localName pv.1) pv.2 (Ne.symm hne) h

theorem foldl_applyRow_preserves (rows : List (String × String))
    (d : Detail) (pv : String × String)
    (hall : ∀ qv ∈ rows, localName qv.1 ≠ localName pv.1)
    (h : rowReflected d pv) :
    rowReflected (rows.foldl applyRow d) pv := by
  induction rows generalizing d with
  | nil => exact h
  | cons r rs ih =>
    rw [List.foldl_cons]
    exact ih (applyRow d r)
      (fun qv hq => hall qv (List.mem_cons_of_mem r hq))
      (applyRow_preserves d pv r (hall r (List.mem_cons_self r rs)) h)

theorem foldl_applyRow_reflects (rows : List (String × String))
    (d : Detail)
    (hnodup : (rows.map (fun r => localName r.1)).Nodup)
    (pv : String × String) (hmem : pv ∈ rows) :
    rowReflected (rows.foldl applyRow d) pv := by
  induction rows generalizing d with
  | nil => simp at hmem
  | cons r rs ih =>
    rw [List.map_cons, List.nodup_cons] at hnodup
    rw [List.foldl_cons]
    rcases List.mem_cons.mp hmem with heq | hmem2
    · rw [heq]
      apply foldl_applyRow_preserves
      · intro qv hq hkey
        exact hnodup.1 (List.mem_map.mpr ⟨qv, hq, hkey⟩)
      · exact applyRow_reflects d r
    · exact ih (applyRow d r) hnodup.2 hmem2

/-! ## Concrete graphs used by witnesses and counterexamples -/

def compNS : String := "http://example.org/ros-components#"

/-- A well-formed two-component graph. -/
def exGLidar : Graph :=
  [⟨compNS ++ "lidar", rdfType, .uri (compNS ++ "SensorDriver")⟩,
   ⟨compNS ++ "lidar", rdfsLabel, .lit "LidarDriver"⟩,
   ⟨compNS ++ "lidar", compDescription, .lit "Front lidar"⟩,
   ⟨compNS ++ "amcl", rdfType, .uri (compNS ++ "LocalizationNode")⟩,
   ⟨compNS ++ "amcl", rdfsLabel, .lit "AMCL"⟩]

def recAMCL : Rec :=
  ⟨compNS ++ "amcl", "AMCL", "LocalizationNode",
   "No description available"⟩

def recLidar : Rec :=
  ⟨compNS ++ "lidar", "LidarDriver", "SensorDriver", "Front lidar"⟩

/-- A component whose name contains the regex metacharacter `+`. -/
def exGPlus : Graph :=
  [⟨compNS ++ "apb", rdfType, .uri (compNS ++ "SensorDriver")⟩,
   ⟨compNS ++ "apb", rdfsLabel, .lit "a+b"⟩]

def recPlus : Rec :=
  ⟨compNS ++ "apb", "a+b", "SensorDriver", "No description available"⟩

/-- A subject whose only triple is an empty-string label. -/
def exGEmptyLabel : Graph :=
  [⟨compNS ++ "x", rdfsLabel, .lit ""⟩]

/-- A subject with one label and two description triples. -/
def exGDupDesc : Graph :=
  [⟨compNS ++ "y", rdfsLabel, .lit "Y"⟩,
   ⟨compNS ++ "y", compDescription, .lit "a"⟩,
   ⟨compNS ++ "y", compDescription, .lit "b"⟩]

/-- The detail the loop builds for `exGDupDesc`'s subject: the first
description triple's value is gone. -/
def detailDupDesc : Detail :=
  ⟨compNS ++ "y", none, some "Y", [("description", "b")]⟩

/-- An allow-listed component whose label is the empty string. -/
def exGEmptyName : Graph :=
  [⟨compNS ++ "z", rdfType, .uri (compNS ++ "Controller")⟩,
   ⟨compNS ++ "z", rdfsLabel, .lit ""⟩]

def recEmptyName : Rec :=
  ⟨compNS ++ "z", "", "Controller", "No description available"⟩

/-- Two components, one of whose labels is (legitimately) a URI
reference rather than a literal. -/
def exGUriLabel : Graph :=
  [⟨compNS ++ "ulab", rdfType, .uri (compNS ++ "Controller")⟩,
   ⟨compNS ++ "ulab", rdfsLabel, .uri (compNS ++ "zzz")⟩,
   ⟨compNS ++ "alab", rdfType, .uri (compNS ++ "Controller")⟩,
   ⟨compNS ++ "alab", rdfsLabel, .lit "a"⟩]

def recUriLabel : Rec :=
  ⟨compNS ++ "ulab", compNS ++ "zzz", "Controller",
   "No description available"⟩

def recLitLabel : Rec :=
  ⟨compNS ++ "alab", "a", "Controller", "No description available"⟩

/-- One subject carrying two allow-listed types. -/
def exGTwoTypes : Graph :=
  [⟨compNS ++ "w", rdfType, .uri (compNS ++ "Controller")⟩,
   ⟨compNS ++ "w", rdfType, .uri (compNS ++ "SensorDriver")⟩]

/-- The number the spec's words describe for `count()`: distinct
subjects holding an allow-listed type. -/
def distinctAllowListedSubjects (g : Graph) : Nat :=
  ((g.filter (fun t => t.p = rdfType ∧ typeObjAllowed t.o)).map
    (fun t => t.s)).dedup.length

/-! ## The claims -/

/-- C1: for every search term consisting only of whitespace (including
the empty string), `search_components` returns exactly the same record
sequence as `get_all_components` on the same graph. -/
theorem search_whitespace_eq_list_all (term : String)
    (h : ∀ c ∈ term.toList, pyIsSpace c = true)
    (rm : String → String → Bool) (g : Graph) :
    search_components rm g term = get_all_components g := by
  apply search_components_of_whitespace
  unfold pyStrip
  rw [List.dropWhile_eq_nil_iff.mpr h]
  rfl

theorem search_whitespace_eq_list_all_witness :
    (∀ c ∈ (" \t ").toList, pyIsSpace c = true) ∧
      search_components regexSearchCI exGLidar " \t " =
        get_all_components exGLidar :=
  ⟨by decide,
   search_whitespace_eq_list_all " \t " (by decide) regexSearchCI exGLidar⟩

/-- C2: every record surfaced by `get_all_components` or by
`search_components` (for any term and any regex oracle) has a `class`
field among the five allow-listed category names. -/
theorem surfaced_cls_mem_allowedClassNames (g : Graph)
    (rm : String → String → Bool) (term : String) (rec : Rec)
    (h : rec ∈ get_all_components g ∨ rec ∈ search_components rm g term) :
    rec.cls ∈ allowedClassNames := by
  have key : ∀ r : Row, r ∈ rawRows g →
      afterLastHash r.class_type ∈ allowedClassNames :=
    fun r hr => mem_allowList_cls _ (rawRows_class_type_mem g r hr)
  rcases h with h | h
  · obtain ⟨row, hrow, hrec⟩ := (mem_get_all_components g rec).mp h
    rw [← hrec]
    exact key row hrow
  · by_cases hws : pyStrip term = ""
    · rw [search_components_of_whitespace rm g term hws] at h
      obtain ⟨row, hrow, hrec⟩ := (mem_get_all_components g rec).mp h
      rw [← hrec]
      exact key row hrow
    · obtain ⟨row, hrow, _, hrec⟩ :=
        (mem_search_components rm g term rec hws).mp h
      rw [← hrec]
      exact key row hrow

theorem surfaced_cls_mem_allowedClassNames_witness :
    (recAMCL ∈ get_all_components exGLidar ∨
      recAMCL ∈ search_components regexSearchCI exGLidar "amcl") ∧
      recAMCL.cls ∈ allowedClassNames :=
  ⟨Or.inl (by decide),
   surfaced_cls_mem_allowedClassNames exGLidar regexSearchCI "amcl"
     recAMCL (Or.inl (by decide))⟩

/-- C3: a query-evaluation failure is never raised to the caller:
`get_all_components` and `search_components` return the empty sequence
and `get_component_details` returns `none` when evaluation fails. -/
theorem adapter_failure_yields_empty (e term uri : String) :
    get_all_components_try (.error e) = [] ∧
      search_components_try term (.error e) (.error e) = [] ∧
      get_component_details_try uri (.error e) = none := by
  refine ⟨rfl, ?_, rfl⟩
  unfold search_components_try
  split <;> rfl

/-- C6 counterexample: `ORDER BY` sorts bound terms with term-type
precedence (URI references before literals), so a URI-valued label is
placed ahead of every literal label and the returned sequence is not
sorted by the `name` text. -/
theorem list_all_not_sorted_by_name_cex :
    get_all_components exGUriLabel = [recUriLabel, recLitLabel] ∧
      ¬(get_all_components exGUriLabel).Pairwise
        (fun a b => strLe a.name b.name = true) := by
  decide

/-- C6 amended: the sequence returned by `get_all_components` is sorted
by the `ORDER BY` key (term-type rank, then text); whenever every label
in the graph is a literal — the intended data shape — it is therefore
sorted by the `name` field in ascending codepoint order. -/
theorem list_all_sorted_by_name_of_literal_labels (g : Graph)
    (h : ∀ t ∈ g, t.p = rdfsLabel → nodeRank t.o = 3) :
    (get_all_components g).Pairwise
      (fun a b => strLe a.name b.name = true) := by
  unfold get_all_components get_all_components_try allComponentsQuery
  have hp2 : (sortByLabel (rawRows g)).Pairwise
      (fun a b => strLe a.label b.label = true) := by
    refine List.Pairwise.imp_of_mem ?_ (pairwise_sortByLabel (rawRows g))
    intro a b ha hb hab
    obtain ⟨hla, ta, hta, hpa, heqa⟩ :=
      rawRows_label_props g a ((mem_sortByLabel _ _).mp ha)
    obtain ⟨hlb, tb, htb, hpb, heqb⟩ :=
      rawRows_label_props g b ((mem_sortByLabel _ _).mp hb)
    have hra : nodeRank a.labelTerm = 3 := by
      rw [heqa]
      exact h ta hta hpa
    have hrb : nodeRank b.labelTerm = 3 := by
      rw [heqb]
      exact h tb htb hpb
    unfold orderByLe at hab
    rw [hra, hrb] at hab
    simp at hab
    rw [hla, hlb]
    exact hab
  exact List.Pairwise.map rowToRec (fun a b hh => hh) hp2

theorem list_all_sorted_by_name_witness :
    (∀ t ∈ exGLidar, t.p = rdfsLabel → nodeRank t.o = 3) ∧
      (get_all_components exGLidar).Pairwise
        (fun a b => strLe a.name b.name = true) :=
  ⟨by decide,
   list_all_sorted_by_name_of_literal_labels exGLidar (by decide)⟩

/-- C10: `load_data` replaces the in-memory graph with a fresh empty
graph before parsing, so its result never depends on the previous
graph, and on a parse failure only the partially parsed triples (not
the pre-call data) remain. -/
theorem load_data_discards_previous_graph (pre pre' : Graph)
    (res : Except Graph Graph) (partialG : Graph) :
    load_data pre res = load_data pre' res ∧
      load_data pre (.error partialG) = (partialG, false) := by
  constructor
  · cases res <;> rfl
  · rfl

/-- Unfolding of `get_component_details` used by several proofs. -/
theorem get_component_details_eq (g : Graph) (uri : String) :
    get_component_details g uri =
      if pyTruthy ((detailRows g uri).foldl applyRow
          ⟨uri, none, none, []⟩).name
      then some ((detailRows g uri).foldl applyRow ⟨uri, none, none, []⟩)
      else none := rfl

/-- C4 counterexample: a subject whose label triple carries the empty
string.  A label property *is* resolved, yet `get_component_details`
returns `none`, because `details.get('name')` is falsy on `""`. -/
theorem details_none_despite_label_cex :
    (⟨compNS ++ "x", rdfsLabel, Node.lit ""⟩ ∈ exGEmptyLabel) ∧
      get_component_details exGEmptyLabel (compNS ++ "x") = none := by
  decide

/-- C4 amended: `get_component_details` returns `none` exactly when the
loop resolves no label value at all or resolves the empty string as the
(last-written) label value — in particular for a uri with no triples,
and for subjects with other properties but no label. -/
theorem details_none_iff_no_truthy_label (g : Graph) (uri : String) :
    get_component_details g uri = none ↔
      (resolvedLabel none (detailRows g uri) = none ∨
        resolvedLabel none (detailRows g uri) = some "") := by
  rw [get_component_details_eq, ← pyTruthy_false_iff]
  simp only [foldl_applyRow_name]
  cases hb : pyTruthy (resolvedLabel none (detailRows g uri)) <;>
    simp [hb]

/-- C5 counterexample: the term `"a+b"` equals the component's name
exactly, yet `search_components` misses the component, because the term
is interpreted as a regex and `a+b` does not match the text `a+b`. -/
theorem search_exact_name_regex_cex :
    recPlus ∈ get_all_components exGPlus ∧ recPlus.name = "a+b" ∧
      search_components regexSearchCI exGPlus "a+b" = [] := by
  decide

/-- C5 amended: for every surfaced component and every term equal to the
component's name up to letter case *and containing no regex
metacharacter*, `search_components` includes that component. -/
theorem search_includes_exact_name_match (g : Graph) (rec : Rec)
    (term : String) (hmem : rec ∈ get_all_components g)
    (hci : ciListEq term.toList rec.name.toList = true)
    (hnm : ∀ c ∈ term.toList, regexMeta.contains c = false) :
    rec ∈ search_components regexSearchCI g term := by
  by_cases hws : pyStrip term = ""
  · rw [search_components_of_whitespace _ _ _ hws]
    exact hmem
  · rw [mem_search_components _ _ _ _ hws]
    obtain ⟨row, hrow, hrec⟩ := (mem_get_all_components g rec).mp hmem
    refine ⟨row, hrow, ?_, hrec⟩
    have hname : rec.name = row.label := by
      rw [← hrec]
      rfl
    have hm : regexSearchCI term row.label = true := by
      apply regexSearchCI_of_ci_nonmeta _ _ _ hnm
      rwa [hname] at hci
    simp [rowMatches, hm]

theorem search_includes_exact_name_match_witness :
    recLidar ∈ get_all_components exGLidar ∧
      ciListEq ("lidardriver").toList (recLidar.name).toList = true ∧
      (∀ c ∈ ("lidardriver").toList, regexMeta.contains c = false) ∧
      recLidar ∈ search_components regexSearchCI exGLidar "lidardriver" :=
  ⟨by decide, by decide, by decide,
   search_includes_exact_name_match exGLidar recLidar "lidardriver"
     (by decide) (by decide) (by decide)⟩

/-- C7 counterexample: a subject with two description triples.  The
properties dictionary keys both under `description`, so the first
triple's value is lost from the returned mapping. -/
theorem details_triple_lost_cex :
    (⟨compNS ++ "y", compDescription, Node.lit "a"⟩ ∈ exGDupDesc) ∧
      get_component_details exGDupDesc (compNS ++ "y") =
        some detailDupDesc ∧
      ("description", "a") ∉ detailDupDesc.props := by
  decide

/-- C7 amended: for every subject whose triples have pairwise-distinct
local predicate names and that resolves a nonempty label,
`get_component_details` returns a detail reflecting every triple:
`type` in `class`, `label` in `name`, everything else in the property
mapping keyed by the predicate's local name. -/
theorem details_reflects_rows_of_nodup_keys (g : Graph) (uri : String)
    (hnodup : ((detailRows g uri).map (fun r => localName r.1)).Nodup)
    (hlabel : ∃ pv ∈ detailRows g uri,
      localName pv.1 = "label" ∧ pv.2 ≠ "") :
    ∃ d, get_component_details g uri = some d ∧ d.uri = uri ∧
      ∀ pv ∈ detailRows g uri, rowReflected d pv := by
  obtain ⟨lv, hlmem, hlkey, hlne⟩ := hlabel
  have hrefl : ∀ pv ∈ detailRows g uri,
      rowReflected ((detailRows g uri).foldl applyRow
        ⟨uri, none, none, []⟩) pv :=
    fun pv hpv => foldl_applyRow_reflects _ _ hnodup pv hpv
  have hname : ((detailRows g uri).foldl applyRow
      (⟨uri, none, none, []⟩ : Detail)).name = some lv.2 := by
    have h2 := hrefl lv hlmem
    unfold rowReflected at h2
    rw [hlkey] at h2
    simpa using h2
  refine ⟨(detailRows g uri).foldl applyRow ⟨uri, none, none, []⟩,
    ?_, foldl_applyRow_uri _ _, hrefl⟩
  rw [get_component_details_eq, hname]
  simp [pyTruthy, hlne]

theorem details_reflects_rows_witness :
    (((detailRows exGLidar (compNS ++ "lidar")).map
      (fun r => localName r.1)).Nodup) ∧
      (∃ pv ∈ detailRows exGLidar (compNS ++ "lidar"),
        localName pv.1 = "label" ∧ pv.2 ≠ "") ∧
      ∃ d, get_component_details exGLidar (compNS ++ "lidar") = some d ∧
        d.uri = compNS ++ "lidar" ∧
        ∀ pv ∈ detailRows exGLidar (compNS ++ "lidar"), rowReflected d pv :=
  ⟨by decide, by decide,
   details_reflects_rows_of_nodup_keys exGLidar (compNS ++ "lidar")
     (by decide) (by decide)⟩

/-- C8 counterexample: one subject with two allow-listed types.
`get_component_count` returns 2 (it counts solution rows), while the
number of distinct allow-listed subjects is 1. -/
theorem count_counts_rows_not_subjects_cex :
    get_component_count exGTwoTypes = 2 ∧
      distinctAllowListedSubjects exGTwoTypes = 1 := by
  decide

/-- C8 amended: `get_component_count` counts allow-listed type
assertions; it equals the number of distinct allow-listed subjects
whenever no subject carries two such types, and a query failure yields
zero. -/
theorem count_eq_distinct_subjects_of_unique_types (g : Graph)
    (h : ((g.filter (fun t => t.p = rdfType ∧ typeObjAllowed t.o)).map
      (fun t => t.s)).Nodup) :
    get_component_count g = distinctAllowListedSubjects g ∧
      ∀ e : String, get_component_count_try (.error e) = 0 := by
  refine ⟨?_, fun e => rfl⟩
  unfold get_component_count get_component_count_try countQuery
    distinctAllowListedSubjects
  rw [List.dedup_eq_self.mpr h, List.length_map]

theorem count_eq_distinct_subjects_witness :
    (((exGLidar.filter (fun t => t.p = rdfType ∧ typeObjAllowed t.o)).map
      (fun t => t.s)).Nodup) ∧
      (get_component_count exGLidar = distinctAllowListedSubjects exGLidar ∧
        ∀ e : String, get_component_count_try (.error e) = 0) :=
  ⟨by decide,
   count_eq_distinct_subjects_of_unique_types exGLidar (by decide)⟩

/-- C9 counterexample: a component with an empty-string label appears in
`get_all_components` (name `""`), yet `get_component_details` on its
uri returns `none` rather than a detail. -/
theorem list_all_uri_details_none_cex :
    get_all_components exGEmptyName = [recEmptyName] ∧
      get_component_details exGEmptyName recEmptyName.uri = none := by
  decide

/-- C9 amended: for every record of `get_all_components` whose subject
has exactly one label-keyed property (its `rdfs:label` triple) with a
nonempty value, `get_component_details` returns a detail whose `name`
is that record's `name`. -/
theorem details_name_matches_list_all_of_unique_label (g : Graph)
    (rec : Rec) (_hmem : rec ∈ get_all_components g)
    (huniq : (detailRows g rec.uri).filter
      (fun r => localName r.1 = "label") = [(rdfsLabel, rec.name)])
    (hne : rec.name ≠ "") :
    ∃ d, get_component_details g rec.uri = some d ∧
      d.name = some rec.name := by
  have hres : resolvedLabel none (detailRows g rec.uri) = some rec.name := by
    rw [resolvedLabel_filter, huniq]
    have hl : localName rdfsLabel = "label" := by decide
    simp [resolvedLabel, hl]
  have hname : ((detailRows g rec.uri).foldl applyRow
      (⟨rec.uri, none, none, []⟩ : Detail)).name = some rec.name := by
    rw [foldl_applyRow_name]
    exact hres
  refine ⟨_, ?_, hname⟩
  rw [get_component_details_eq, hname]
  simp [pyTruthy, hne]

theorem details_name_matches_list_all_witness :
    recLidar ∈ get_all_components exGLidar ∧
      (detailRows exGLidar recLidar.uri).filter
        (fun r => localName r.1 = "label") = [(rdfsLabel, recLidar.name)] ∧
      recLidar.name ≠ "" ∧
      ∃ d, get_component_details exGLidar recLidar.uri = some d ∧
        d.name = some recLidar.name :=
  ⟨by decide, by decide, by decide,
   details_name_matches_list_all_of_unique_label exGLidar recLidar
     (by decide) (by decide) (by decide)⟩
